import Mathlib

/-!
Shallow embedding of `src/number_parser.c` together with the inline functions
of its header (`number_parser_init`, `number_parser_set_rad_point`,
`number_parser_set_neg`, `number_parser_set_exp_neg`).

Modelling conventions:
* `uint64_t` values are `ℕ` with explicit `% 2 ^ 64` at every store where the
  C arithmetic is modular; `int64_t` reads of the union slot go through
  `toInt64` (two's-complement reinterpretation of the `uint64_t` bit pattern).
* `int16_t` fields (`int_len`, `rad_off`, `exp_val`) are `ℤ`; the one store
  that can exceed the `int16_t` range (`exp_val = exp_val * base + digit`)
  goes through `wrapI16`, the usual two's-complement truncation.
  (`int_len` is guarded by `MAX_LEN` and `rad_off` copies `int_len`, so those
  stores can never leave the `int16_t` range on states the API produces.)
* The C `union { int64_t ival; uint64_t uval; double fval; }` is modelled as
  two fields `uval : ℕ` and `fval : ℚ` with `is_float` selecting the active
  one, exactly as the code itself uses it.  `fval : ℚ` is an exact-rational
  idealization of the C `double`; no theorem below depends on the numeric
  value of `fval`, only on which union member is active and on the integer
  slot.
* `ival = -ival` on `INT64_MIN` is signed overflow in C (undefined there);
  it is modelled as the two's-complement wraparound that the code relies on,
  per the repository's own documentation of the `-2^63` boundary case.
-/

namespace NumberParser

/-- The C macro `MAX_INT = (uint64_t) INT64_MAX + 1`, i.e. `2 ^ 63`. -/
def MAX_INT : ℕ := 2 ^ 63

/-- The C macro `MAX_POS_INT = MAX_INT - 1`, i.e. `2 ^ 63 - 1`. -/
def MAX_POS_INT : ℕ := MAX_INT - 1

/-- The C macro `MAX_EXP = -DBL_MIN_10_EXP = 308`. -/
def MAX_EXP : ℤ := 308

/-- The C macro `MAX_LEN = INT16_MAX = 32767`. -/
def MAX_LEN : ℤ := 32767

/-- Reinterpret a `uint64_t` bit pattern as `int64_t` (two's complement). -/
def toInt64 (u : ℕ) : ℤ := if u < 2 ^ 63 then (u : ℤ) else (u : ℤ) - 2 ^ 64

/-- Store an integer into the 64-bit union slot, keeping the `uint64_t`
bit pattern (two's-complement wraparound). -/
def wrapU64 (z : ℤ) : ℕ := (z % 2 ^ 64).toNat

/-- Store an integer into an `int16_t`, with two's-complement truncation. -/
def wrapI16 (z : ℤ) : ℤ := (z + 2 ^ 15) % 2 ^ 16 - 2 ^ 15

/-- The parser struct (named `number_parser` in the C header); the union is
split into `uval`/`fval` with
`is_float` selecting the active member; `was_int` is declared in the header
but never written by the implementation. -/
structure number_parser_state where
  int_len : ℤ
  rad_off : ℤ
  exp_val : ℤ
  base : ℕ
  sign : Bool
  exp_sign : Bool
  is_float : Bool
  has_exp : Bool
  was_int : Bool
  uval : ℕ
  fval : ℚ
  deriving DecidableEq

/-- `number_parser_init`: zero-initialize except `base` and `rad_off = -1`. -/
def number_parser_init (base : ℕ) : number_parser_state :=
  { int_len := 0, rad_off := -1, exp_val := 0, base := base,
    sign := false, exp_sign := false, is_float := false, has_exp := false,
    was_int := false, uval := 0, fval := 0 }

/-- `convert_to_float`: if not yet float, set `is_float` and copy the
unsigned magnitude into the float slot. -/
def convert_to_float (p : number_parser_state) : number_parser_state :=
  if p.is_float = false then { p with is_float := true, fval := (p.uval : ℚ) }
  else p

/-- `number_parser_add_digit`.  Digits are C `int` values in `[0, base-1]`
(at most 254), so `MAX_INT - digit` never wraps and is plain subtraction. -/
def number_parser_add_digit (p : number_parser_state) (digit : ℕ) : number_parser_state :=
  if MAX_LEN ≤ p.int_len then p
  else
    let p1 := if p.is_float = false then
                (if MAX_INT / p.base < p.uval then convert_to_float p else p)
              else p
    let p2 :=
      if p1.is_float = false then
        let u := p1.uval * p1.base % 2 ^ 64
        if MAX_INT - digit < u then
          let p3 := convert_to_float { p1 with uval := u }
          { p3 with fval := p3.fval + (digit : ℚ) }
        else { p1 with uval := (u + digit) % 2 ^ 64 }
      else { p1 with fval := p1.fval * (p1.base : ℚ) + (digit : ℚ) }
    { p2 with int_len := p2.int_len + 1 }

/-- `number_parser_add_exp_digit`: ignore once `exp_val` reached `MAX_EXP`;
otherwise `exp_val = exp_val * base + digit` (an `int16_t` store) and
`has_exp = 1`. -/
def number_parser_add_exp_digit (p : number_parser_state) (digit : ℕ) : number_parser_state :=
  if p.exp_val < MAX_EXP then
    { p with exp_val := wrapI16 (p.exp_val * (p.base : ℤ) + (digit : ℤ)),
             has_exp := true }
  else p

/-- `number_parser_set_rad_point`: `rad_off = int_len`, unconditionally. -/
def number_parser_set_rad_point (p : number_parser_state) : number_parser_state :=
  { p with rad_off := p.int_len }

/-- `number_parser_set_neg`: `sign = (negative != 0)`. -/
def number_parser_set_neg (p : number_parser_state) (negative : Bool) : number_parser_state :=
  { p with sign := negative }

/-- `number_parser_set_exp_neg`: `exp_sign = (negative != 0)`. -/
def number_parser_set_exp_neg (p : number_parser_state) (negative : Bool) : number_parser_state :=
  { p with exp_sign := negative }

/-- The square-and-multiply loop of `number_parser_end`
(`while (n) { if (n & 1) e *= d; n >>= 1; d *= d; }`), exact in `ℚ`. -/
def powLoop (e d : ℚ) (n : ℕ) : ℚ :=
  if n = 0 then e
  else powLoop (if n % 2 = 1 then e * d else e) (d * d) (n / 2)
  termination_by n
  decreasing_by exact Nat.div_lt_self (Nat.pos_of_ne_zero (by assumption)) (by omega)

/-- The promotion test of `number_parser_end`:
`(!parser->sign && parser->uval > MAX_POS_INT) || parser->has_exp ||
parser->rad_off >= 0`. -/
def promoteCond (p : number_parser_state) : Prop :=
  (p.sign = false ∧ MAX_POS_INT < p.uval) ∨ p.has_exp = true ∨ 0 ≤ p.rad_off

instance (p : number_parser_state) : Decidable (promoteCond p) :=
  inferInstanceAs
    (Decidable ((p.sign = false ∧ MAX_POS_INT < p.uval) ∨ p.has_exp = true ∨
      0 ≤ p.rad_off))

/-- `number_parser_end`: returns the pair of the C return value
(`is_float`, as a `Bool`) and the mutated parser state.
When `is_float` is already set on entry, the C code's read of `uval` in the
promotion test type-puns the double; since `convert_to_float` is then a
no-op either way, the test's outcome is irrelevant and the model's stale
`uval` is observationally faithful. -/
def number_parser_end (p : number_parser_state) : Bool × number_parser_state :=
  let p := if promoteCond p then convert_to_float p else p
  if p.is_float = true then
    let n0 : ℤ := if p.exp_sign then -p.exp_val else p.exp_val
    let n1 : ℤ := if 0 ≤ p.rad_off then n0 - (p.int_len - p.rad_off) else n0
    let expSign : Bool := if n1 < 0 then true else p.exp_sign
    let n2 : ℤ := if n1 < 0 then -n1 else n1
    let e : ℚ := powLoop 1 (p.base : ℚ) n2.toNat
    let fv0 : ℚ := if p.sign then -p.fval else p.fval
    let fv : ℚ := if expSign then fv0 / e else fv0 * e
    (true, { p with exp_sign := expSign, fval := fv })
  else if p.sign then
    (false, { p with uval := wrapU64 (-(toInt64 p.uval)) })
  else (false, p)

/-- Read the signed-integer result (`parser.ival`) of the union slot. -/
def ival (p : number_parser_state) : ℤ := toInt64 p.uval

/-- The five accumulation operations, for quantifying over call sequences. -/
inductive Op where
  | addDigit (d : ℕ)
  | addExpDigit (d : ℕ)
  | setRadPoint
  | setNeg (b : Bool)
  | setExpNeg (b : Bool)
  deriving DecidableEq

/-- One accumulation operation applied to a parser state. -/
def step (p : number_parser_state) (op : Op) : number_parser_state :=
  match op with
  | .addDigit d => number_parser_add_digit p d
  | .addExpDigit d => number_parser_add_exp_digit p d
  | .setRadPoint => number_parser_set_rad_point p
  | .setNeg b => number_parser_set_neg p b
  | .setExpNeg b => number_parser_set_exp_neg p b

/-- Run a sequence of accumulation operations. -/
def run (p : number_parser_state) (ops : List Op) : number_parser_state := ops.foldl step p

/-- Value of a most-significant-first digit sequence. -/
def digitsVal (base : ℕ) (ds : List ℕ) : ℕ :=
  ds.foldl (fun v d => v * base + d) 0

/-- Digit arguments of an operation are in range for base `b`. -/
def Op.digitsOk (b : ℕ) : Op → Prop
  | .addDigit d => d < b
  | .addExpDigit d => d < b
  | _ => True

/-! ## Helper lemmas -/

theorem wrapI16_eq_self {z : ℤ} (h1 : -(2 ^ 15) ≤ z) (h2 : z < 2 ^ 15) :
    wrapI16 z = z := by
  unfold wrapI16
  omega

theorem convert_to_float_rad_off (p : number_parser_state) :
    (convert_to_float p).rad_off = p.rad_off := by
  unfold convert_to_float
  split_ifs <;> rfl

theorem add_digit_rad_off (p : number_parser_state) (d : ℕ) :
    (number_parser_add_digit p d).rad_off = p.rad_off := by
  unfold number_parser_add_digit convert_to_float
  dsimp only
  split_ifs <;> rfl

theorem add_digit_int_len (p : number_parser_state) (d : ℕ) :
    (number_parser_add_digit p d).int_len = p.int_len ∨
    (number_parser_add_digit p d).int_len = p.int_len + 1 := by
  unfold number_parser_add_digit convert_to_float
  dsimp only
  split_ifs <;> simp

/-! ## Claim theorems -/

/-- C10: calling finalize immediately after construct(base), with no
accumulation operations at all, returns kind=integer with signed integer
value 0, for every base in [2,255]. -/
theorem C10_end_after_init (b : ℕ) (h1 : 2 ≤ b) (h2 : b ≤ 255) :
    (number_parser_end (number_parser_init b)).fst = false ∧
    ival (number_parser_end (number_parser_init b)).snd = 0 := by
  unfold number_parser_end promoteCond number_parser_init convert_to_float ival toInt64
  norm_num [MAX_POS_INT, MAX_INT]

theorem C10_witness :
    (2 ≤ 10 ∧ 10 ≤ 255) ∧
    ((number_parser_end (number_parser_init 10)).fst = false ∧
      ival (number_parser_end (number_parser_init 10)).snd = 0) :=
  ⟨by decide, C10_end_after_init 10 (by decide) (by decide)⟩

/-- C3: if the accumulated mantissa magnitude is exactly `2^63`, the mantissa
sign is negative, and no radix point was set and no exponent digit appended,
finalize returns kind=integer with signed result exactly `-2^63`. -/
theorem C3_neg_boundary (s : number_parser_state) (h1 : s.is_float = false)
    (h2 : s.uval = 2 ^ 63) (h3 : s.sign = true) (h4 : s.has_exp = false)
    (h5 : s.rad_off < 0) :
    (number_parser_end s).fst = false ∧
    ival (number_parser_end s).snd = -(2 ^ 63) := by
  simp [number_parser_end, promoteCond, ival, h1, h2, h3, h4, not_le.mpr h5]
  decide

theorem C3_witness :
    (number_parser_end
        { number_parser_init 10 with uval := 2 ^ 63, sign := true }).fst = false ∧
    ival (number_parser_end
        { number_parser_init 10 with uval := 2 ^ 63, sign := true }).snd =
      -(2 ^ 63) :=
  C3_neg_boundary _ rfl rfl rfl rfl (by decide)

/-- C4: if the accumulated mantissa magnitude is exactly `2^63` and the
mantissa sign is non-negative (and no radix point or exponent digit),
finalize returns kind=float, since `2^63` does not fit a positive `int64_t`. -/
theorem C4_pos_boundary_float (s : number_parser_state) (h1 : s.is_float = false)
    (h2 : s.uval = 2 ^ 63) (h3 : s.sign = false) (h4 : s.has_exp = false)
    (h5 : s.rad_off < 0) :
    (number_parser_end s).fst = true := by
  have hc : MAX_POS_INT < s.uval := by rw [h2]; decide
  simp [number_parser_end, promoteCond, convert_to_float, h1, h3, hc]

theorem C4_witness :
    (number_parser_end { number_parser_init 10 with uval := 2 ^ 63 }).fst =
      true :=
  C4_pos_boundary_float _ rfl rfl rfl rfl (by decide)

/-- C8: when `int_len` has reached the cap `MAX_LEN = 32767`,
`number_parser_add_digit` is a complete no-op (the whole state is unchanged),
and hence finalize after the extra digit equals finalize at the cap. -/
theorem C8_cap_noop (s : number_parser_state) (d : ℕ) (h : MAX_LEN ≤ s.int_len) :
    number_parser_add_digit s d = s ∧
    number_parser_end (number_parser_add_digit s d) = number_parser_end s := by
  have h1 : number_parser_add_digit s d = s := by
    unfold number_parser_add_digit
    rw [if_pos h]
  exact ⟨h1, by rw [h1]⟩

theorem C8_witness :
    number_parser_add_digit { number_parser_init 10 with int_len := 32767 } 5 =
      { number_parser_init 10 with int_len := 32767 } ∧
    number_parser_end
        (number_parser_add_digit
          { number_parser_init 10 with int_len := 32767 } 5) =
      number_parser_end { number_parser_init 10 with int_len := 32767 } :=
  C8_cap_noop _ 5 (by decide)

/-- C9 as frozen is false: with base 255 and exponent digits 254, 254
(both in `[0, base-1]`, and `exp_val = 254 < 308` before the second call),
the second `number_parser_add_exp_digit` stores the `int16_t` truncation
`-512`, not `exp_val * base + digit = 65024`. -/
theorem C9_counterexample :
    (number_parser_add_exp_digit (number_parser_init 255) 254).exp_val = 254 ∧
    (254 : ℤ) < MAX_EXP ∧
    (number_parser_add_exp_digit
        (number_parser_add_exp_digit (number_parser_init 255) 254)
        254).exp_val = -512 ∧
    ((-512 : ℤ) ≠ 254 * 255 + 254) := by
  decide

/-- C9 amended: `number_parser_add_exp_digit` leaves the state unchanged
when `exp_val ≥ 308`; otherwise it stores the `int16_t` truncation of
`exp_val * base + digit` and sets `has_exp`; the stored value equals
`exp_val * base + digit` exactly whenever `0 ≤ exp_val`, `base ≤ 106` and
`digit < base` (in particular always for base 10). -/
theorem C9_amended (s : number_parser_state) (d : ℕ) :
    (MAX_EXP ≤ s.exp_val → number_parser_add_exp_digit s d = s) ∧
    (s.exp_val < MAX_EXP →
      number_parser_add_exp_digit s d =
        { s with exp_val := wrapI16 (s.exp_val * (s.base : ℤ) + (d : ℤ)),
                 has_exp := true }) ∧
    (s.exp_val < MAX_EXP → 0 ≤ s.exp_val → (s.base : ℤ) ≤ 106 →
      (d : ℤ) < (s.base : ℤ) →
      (number_parser_add_exp_digit s d).exp_val =
        s.exp_val * (s.base : ℤ) + (d : ℤ) ∧
      (number_parser_add_exp_digit s d).has_exp = true) := by
  refine ⟨?_, ?_, ?_⟩
  · intro h
    unfold number_parser_add_exp_digit
    rw [if_neg (not_lt.mpr h)]
  · intro h
    unfold number_parser_add_exp_digit
    rw [if_pos h]
  · intro h h0 hb hd
    unfold number_parser_add_exp_digit
    rw [if_pos h]
    refine ⟨?_, rfl⟩
    show wrapI16 (s.exp_val * (s.base : ℤ) + (d : ℤ)) =
      s.exp_val * (s.base : ℤ) + (d : ℤ)
    have h307 : s.exp_val ≤ 307 := by
      have h' : s.exp_val < 308 := h
      omega
    have hbase0 : (0 : ℤ) ≤ (s.base : ℤ) := by positivity
    have hmul0 : (0 : ℤ) ≤ s.exp_val * (s.base : ℤ) := mul_nonneg h0 hbase0
    have hmul : s.exp_val * (s.base : ℤ) ≤ 307 * 106 :=
      mul_le_mul h307 hb hbase0 (by norm_num)
    exact wrapI16_eq_self (by omega) (by omega)

theorem C9_amended_witness :
    (number_parser_add_exp_digit (number_parser_init 10) 5).exp_val = 5 ∧
    (number_parser_add_exp_digit (number_parser_init 10) 5).has_exp = true := by
  have h := (C9_amended (number_parser_init 10) 5).2.2 (by decide) (by decide)
    (by decide) (by decide)
  simpa using h


theorem add_exp_digit_frame (p : number_parser_state) (d : ℕ) :
    (number_parser_add_exp_digit p d).int_len = p.int_len ∧
    (number_parser_add_exp_digit p d).rad_off = p.rad_off := by
  unfold number_parser_add_exp_digit
  split_ifs <;> exact ⟨rfl, rfl⟩

theorem step_int_len_nonneg (p : number_parser_state) (op : Op) (h : 0 ≤ p.int_len) :
    0 ≤ (step p op).int_len := by
  cases op with
  | addDigit d =>
    rcases add_digit_int_len p d with h' | h' <;> rw [step, h'] <;> omega
  | addExpDigit d => rw [step, (add_exp_digit_frame p d).1]; exact h
  | setRadPoint => exact h
  | setNeg b => exact h
  | setExpNeg b => exact h

theorem step_rad_off_nonneg (p : number_parser_state) (op : Op) (hI : 0 ≤ p.int_len)
    (hR : 0 ≤ p.rad_off) : 0 ≤ (step p op).rad_off := by
  cases op with
  | addDigit d => rw [step, add_digit_rad_off]; exact hR
  | addExpDigit d => rw [step, (add_exp_digit_frame p d).2]; exact hR
  | setRadPoint => exact hI
  | setNeg b => exact hR
  | setExpNeg b => exact hR

theorem step_rad_off_eq (p : number_parser_state) (op : Op) (h : op ≠ Op.setRadPoint) :
    (step p op).rad_off = p.rad_off := by
  cases op with
  | addDigit d => exact add_digit_rad_off p d
  | addExpDigit d => exact (add_exp_digit_frame p d).2
  | setRadPoint => exact absurd rfl h
  | setNeg b => rfl
  | setExpNeg b => rfl

theorem end_fst_true_of (s : number_parser_state)
    (h : promoteCond s ∨ s.is_float = true) :
    (number_parser_end s).fst = true ∧
    (number_parser_end s).snd.is_float = true := by
  unfold number_parser_end
  dsimp only
  rcases h with h | h
  · rw [if_pos h]
    have hf : (convert_to_float s).is_float = true := by
      unfold convert_to_float
      split_ifs with h' <;> simp_all
    rw [if_pos hf]
    exact ⟨rfl, hf⟩
  · have hf : (if promoteCond s then convert_to_float s else s).is_float =
        true := by
      split_ifs with hc
      · unfold convert_to_float; simp [h]
      · exact h
    rw [if_pos hf]
    exact ⟨rfl, hf⟩

theorem end_int_case (s : number_parser_state) (hf : s.is_float = false)
    (hc : ¬ promoteCond s) :
    number_parser_end s =
      (false, if s.sign = true
              then { s with uval := wrapU64 (-(toInt64 s.uval)) }
              else s) := by
  unfold number_parser_end
  dsimp only
  rw [if_neg hc, hf]
  by_cases hs : s.sign = true
  · rw [if_neg (by decide), if_pos hs, if_pos hs]
  · rw [if_neg (by decide), if_neg hs, if_neg hs]


/-- C6 as frozen is false: after set_radix_point has set the radix offset to
1, a further append and a second set_radix_point call overwrite it with 2. -/
theorem C6_counterexample :
    (run (number_parser_init 10) [Op.addDigit 1, Op.setRadPoint]).rad_off = 1 ∧
    (run (number_parser_init 10)
        [Op.addDigit 1, Op.setRadPoint, Op.addDigit 2,
          Op.setRadPoint]).rad_off = 2 ∧
    (1 : ℤ) ≠ 2 := by
  refine ⟨by decide, by decide, by decide⟩

/-- C6 amended: once the radix offset has been set (it is nonnegative), no
operation ever unsets it, and no operation other than a further
set_radix_point call changes its value; a second set_radix_point call
overwrites it with the current digit count. -/
theorem C6_amended (s : number_parser_state) (ops : List Op) (hI : 0 ≤ s.int_len)
    (hR : 0 ≤ s.rad_off) :
    0 ≤ (run s ops).rad_off ∧
    ((∀ op ∈ ops, op ≠ Op.setRadPoint) → (run s ops).rad_off = s.rad_off) := by
  induction ops generalizing s with
  | nil => exact ⟨hR, fun _ => rfl⟩
  | cons op rest ih =>
    have hI' := step_int_len_nonneg s op hI
    have hR' := step_rad_off_nonneg s op hI hR
    obtain ⟨g1, g2⟩ := ih (step s op) hI' hR'
    refine ⟨g1, fun hall => ?_⟩
    have h1 : (step s op).rad_off = s.rad_off :=
      step_rad_off_eq s op (hall op (List.mem_cons_self _ _))
    calc (run (step s op) rest).rad_off
        = (step s op).rad_off := g2 fun o ho => hall o (List.mem_cons_of_mem _ ho)
      _ = s.rad_off := h1

/-- C7 as frozen is false: finalize mutates the accumulated state, so for the
negative integer -5 a second finalize call negates the value again and
returns 5. -/
theorem C7_counterexample :
    (number_parser_end (number_parser_set_neg
        (number_parser_add_digit (number_parser_init 10) 5) true)).fst = false ∧
    ival (number_parser_end (number_parser_set_neg
        (number_parser_add_digit (number_parser_init 10) 5) true)).snd = -5 ∧
    ival (number_parser_end (number_parser_end (number_parser_set_neg
        (number_parser_add_digit (number_parser_init 10) 5) true)).snd).snd =
      5 ∧
    ((5 : ℤ) ≠ -5) := by
  refine ⟨by decide, by decide, by decide, by decide⟩

/-- C7 amended: a second finalize call on the same accumulator, with no
intervening operations, always reproduces the same kind; it also reproduces
the same result state when the mantissa sign is non-negative and the first
result was integer (then finalize did not change the state), but not in
general, because finalize mutates the accumulated state. -/
theorem C7_amended (s : number_parser_state) :
    (number_parser_end (number_parser_end s).snd).fst =
      (number_parser_end s).fst ∧
    (s.sign = false → (number_parser_end s).fst = false →
      (number_parser_end (number_parser_end s).snd).snd =
        (number_parser_end s).snd) := by
  by_cases hor : promoteCond s ∨ s.is_float = true
  · obtain ⟨hfst, hsnd⟩ := end_fst_true_of s hor
    have h2 := (end_fst_true_of (number_parser_end s).snd (Or.inr hsnd)).1
    refine ⟨by rw [h2, hfst], fun _ hff => ?_⟩
    rw [hfst] at hff
    exact absurd hff (by decide)
  · push_neg at hor
    obtain ⟨hc, hf⟩ := hor
    have hf' : s.is_float = false := by
      cases h : s.is_float
      · rfl
      · exact absurd h hf
    have e1 := end_int_case s hf' hc
    have hcparts : (s.sign = false → s.uval ≤ MAX_POS_INT) ∧
        s.has_exp ≠ true ∧ s.rad_off < 0 := by
      unfold promoteCond at hc
      push_neg at hc
      exact hc
    by_cases hs : s.sign = true
    · have e1' : number_parser_end s =
          (false, { s with uval := wrapU64 (-(toInt64 s.uval)) }) := by
        rw [e1, if_pos hs]
      have hf1 : ({ s with uval := wrapU64 (-(toInt64 s.uval)) }
          : number_parser_state).is_float = false := hf'
      have hc1 : ¬ promoteCond { s with uval := wrapU64 (-(toInt64 s.uval)) } := by
        unfold promoteCond
        dsimp only
        rintro (⟨ha, _⟩ | ha | ha)
        · rw [hs] at ha; exact absurd ha (by decide)
        · exact hcparts.2.1 ha
        · exact absurd ha (not_le.mpr hcparts.2.2)
      have e2 := end_int_case _ hf1 hc1
      rw [if_pos hs] at e2
      constructor
      · simp [e1', e2]
      · intro hsf _
        rw [hs] at hsf
        exact absurd hsf (by decide)
    · have hsf : s.sign = false := by
        cases h : s.sign
        · rfl
        · exact absurd h hs
      have e1' : number_parser_end s = (false, s) := by rw [e1, if_neg hs]
      exact ⟨by simp [e1'], fun _ _ => by simp [e1']⟩


/-- Basic reachability invariant: nonnegative digit count, and the exponent
value is still zero as long as no exponent digit was accepted. -/
def Inv (s : number_parser_state) : Prop :=
  0 ≤ s.int_len ∧ (s.has_exp = false → s.exp_val = 0)

/-- A float trigger is pending: radix point set or exponent digit accepted. -/
def FloatTrigger (s : number_parser_state) : Prop :=
  0 ≤ s.rad_off ∨ s.has_exp = true

theorem add_digit_exp_frame (p : number_parser_state) (d : ℕ) :
    (number_parser_add_digit p d).has_exp = p.has_exp ∧
    (number_parser_add_digit p d).exp_val = p.exp_val := by
  unfold number_parser_add_digit convert_to_float
  dsimp only
  split_ifs <;> exact ⟨rfl, rfl⟩

theorem add_exp_digit_has_exp_mono (p : number_parser_state) (d : ℕ)
    (h : p.has_exp = true) : (number_parser_add_exp_digit p d).has_exp = true := by
  unfold number_parser_add_exp_digit
  split_ifs <;> simp [h]

theorem step_Inv (p : number_parser_state) (op : Op) (h : Inv p) : Inv (step p op) := by
  obtain ⟨hI, hE⟩ := h
  cases op with
  | addDigit d =>
    refine ⟨step_int_len_nonneg p _ hI, ?_⟩
    rw [show step p (Op.addDigit d) = number_parser_add_digit p d from rfl,
      (add_digit_exp_frame p d).1, (add_digit_exp_frame p d).2]
    exact hE
  | addExpDigit d =>
    refine ⟨step_int_len_nonneg p _ hI, ?_⟩
    show (number_parser_add_exp_digit p d).has_exp = false →
      (number_parser_add_exp_digit p d).exp_val = 0
    unfold number_parser_add_exp_digit
    split_ifs with h'
    · intro hh; exact absurd hh (by simp)
    · exact hE
  | setRadPoint => exact ⟨hI, hE⟩
  | setNeg b => exact ⟨hI, hE⟩
  | setExpNeg b => exact ⟨hI, hE⟩

theorem step_FloatTrigger (p : number_parser_state) (op : Op) (hInv : Inv p)
    (h : FloatTrigger p) : FloatTrigger (step p op) := by
  cases op with
  | addDigit d =>
    rcases h with h | h
    · exact Or.inl (by rw [show step p (Op.addDigit d) =
        number_parser_add_digit p d from rfl, add_digit_rad_off]; exact h)
    · exact Or.inr (by rw [show step p (Op.addDigit d) =
        number_parser_add_digit p d from rfl, (add_digit_exp_frame p d).1]; exact h)
  | addExpDigit d =>
    rcases h with h | h
    · exact Or.inl (by rw [show step p (Op.addExpDigit d) =
        number_parser_add_exp_digit p d from rfl,
        (add_exp_digit_frame p d).2]; exact h)
    · exact Or.inr (add_exp_digit_has_exp_mono p d h)
  | setRadPoint => exact Or.inl hInv.1
  | setNeg b => exact h
  | setExpNeg b => exact h

theorem trigger_FloatTrigger (p : number_parser_state) (op : Op) (hInv : Inv p)
    (h : op = Op.setRadPoint ∨ ∃ d, op = Op.addExpDigit d) :
    FloatTrigger (step p op) := by
  rcases h with rfl | ⟨d, rfl⟩
  · exact Or.inl hInv.1
  · by_cases hh : p.has_exp = true
    · exact Or.inr (add_exp_digit_has_exp_mono p d hh)
    · have hE : p.exp_val = 0 := hInv.2 (by
        cases h : p.has_exp
        · rfl
        · exact absurd h hh)
      refine Or.inr ?_
      show (number_parser_add_exp_digit p d).has_exp = true
      unfold number_parser_add_exp_digit
      rw [if_pos (by rw [hE]; decide)]

theorem run_Inv (ops : List Op) (p : number_parser_state) (h : Inv p) :
    Inv (run p ops) := by
  induction ops generalizing p with
  | nil => exact h
  | cons op rest ih => exact ih (step p op) (step_Inv p op h)

theorem run_FloatTrigger (ops : List Op) (p : number_parser_state) (hInv : Inv p)
    (h : FloatTrigger p) : FloatTrigger (run p ops) := by
  induction ops generalizing p with
  | nil => exact h
  | cons op rest ih =>
    exact ih (step p op) (step_Inv p op hInv) (step_FloatTrigger p op hInv h)

theorem floatTrigger_promoteCond (p : number_parser_state) (h : FloatTrigger p) :
    promoteCond p := by
  rcases h with h | h
  · exact Or.inr (Or.inr h)
  · exact Or.inr (Or.inl h)

/-- C2: for every operation sequence on one accumulator in which
set_radix_point is called at least once or append_exponent_digit is called at
least once, finalize returns kind=float, regardless of the mantissa
magnitude. -/
theorem C2_trigger_forces_float (b : ℕ) (ops : List Op) (h1 : 2 ≤ b)
    (h2 : b ≤ 255)
    (hop : Op.setRadPoint ∈ ops ∨ ∃ d, Op.addExpDigit d ∈ ops) :
    (number_parser_end (run (number_parser_init b) ops)).fst = true := by
  have main : ∀ op₀ : Op, (op₀ = Op.setRadPoint ∨ ∃ d, op₀ = Op.addExpDigit d) →
      op₀ ∈ ops →
      (number_parser_end (run (number_parser_init b) ops)).fst = true := by
    intro op₀ hop₀ hmem
    obtain ⟨l1, l2, rfl⟩ := List.append_of_mem hmem
    have hInv0 : Inv (number_parser_init b) := ⟨le_refl 0, fun _ => rfl⟩
    have hInv1 : Inv (run (number_parser_init b) l1) := run_Inv l1 _ hInv0
    have hInv2 : Inv (step (run (number_parser_init b) l1) op₀) :=
      step_Inv _ _ hInv1
    have hF : FloatTrigger (step (run (number_parser_init b) l1) op₀) :=
      trigger_FloatTrigger _ _ hInv1 hop₀
    have hF2 : FloatTrigger (run (step (run (number_parser_init b) l1) op₀) l2) :=
      run_FloatTrigger l2 _ hInv2 hF
    have hsplit : run (number_parser_init b) (l1 ++ op₀ :: l2) =
        run (step (run (number_parser_init b) l1) op₀) l2 := by
      unfold run
      rw [List.foldl_append, List.foldl_cons]
    rw [hsplit]
    exact (end_fst_true_of _ (Or.inl (floatTrigger_promoteCond _ hF2))).1
  rcases hop with hmem | ⟨d, hmem⟩
  · exact main Op.setRadPoint (Or.inl rfl) hmem
  · exact main (Op.addExpDigit d) (Or.inr ⟨d, rfl⟩) hmem

theorem C2_witness :
    (number_parser_end (run (number_parser_init 10)
        [Op.addDigit 1, Op.setRadPoint])).fst = true :=
  C2_trigger_forces_float 10 _ (by decide) (by decide) (Or.inl (by decide))


theorem add_digit_uval_bound (p : number_parser_state) (d : ℕ) (hb : 2 ≤ p.base)
    (hd : d < p.base) (hbR : p.base ≤ 255)
    (hI : p.is_float = false → p.uval ≤ 2 ^ 63) :
    (number_parser_add_digit p d).is_float = false →
    (number_parser_add_digit p d).uval ≤ 2 ^ 63 := by
  have hMI : MAX_INT = 2 ^ 63 := rfl
  unfold number_parser_add_digit convert_to_float
  dsimp only
  split_ifs with h1 h2 h3 h4 h5 h6 h7 <;> intro hf <;> try exact hI hf
  all_goals simp_all
  have hdiv : p.uval * p.base ≤ 9223372036854775808 :=
    (Nat.le_div_iff_mul_le (by omega)).1 h3
  omega


theorem add_digit_base (p : number_parser_state) (d : ℕ) :
    (number_parser_add_digit p d).base = p.base := by
  unfold number_parser_add_digit convert_to_float
  dsimp only
  split_ifs <;> rfl

theorem add_exp_digit_base (p : number_parser_state) (d : ℕ) :
    (number_parser_add_exp_digit p d).base = p.base := by
  unfold number_parser_add_exp_digit
  split_ifs <;> rfl

theorem step_base (p : number_parser_state) (op : Op) : (step p op).base = p.base := by
  cases op with
  | addDigit d => exact add_digit_base p d
  | addExpDigit d => exact add_exp_digit_base p d
  | setRadPoint => rfl
  | setNeg b => rfl
  | setExpNeg b => rfl

theorem add_exp_digit_union_frame (p : number_parser_state) (d : ℕ) :
    (number_parser_add_exp_digit p d).uval = p.uval ∧
    (number_parser_add_exp_digit p d).is_float = p.is_float := by
  unfold number_parser_add_exp_digit
  split_ifs <;> exact ⟨rfl, rfl⟩

theorem step_uval_bound (p : number_parser_state) (op : Op) (hb : 2 ≤ p.base)
    (hbR : p.base ≤ 255) (hok : op.digitsOk p.base)
    (hI : p.is_float = false → p.uval ≤ 2 ^ 63) :
    (step p op).is_float = false → (step p op).uval ≤ 2 ^ 63 := by
  cases op with
  | addDigit d => exact add_digit_uval_bound p d hb hok hbR hI
  | addExpDigit d =>
    rw [show step p (Op.addExpDigit d) = number_parser_add_exp_digit p d
      from rfl, (add_exp_digit_union_frame p d).1,
      (add_exp_digit_union_frame p d).2]
    exact hI
  | setRadPoint => exact hI
  | setNeg b => exact hI
  | setExpNeg b => exact hI

theorem run_uval_bound (ops : List Op) (p : number_parser_state) (hb : 2 ≤ p.base)
    (hbR : p.base ≤ 255) (hok : ∀ op ∈ ops, op.digitsOk p.base)
    (hI : p.is_float = false → p.uval ≤ 2 ^ 63) :
    (run p ops).is_float = false → (run p ops).uval ≤ 2 ^ 63 := by
  induction ops generalizing p with
  | nil => exact hI
  | cons op rest ih =>
    have hbase : (step p op).base = p.base := step_base p op
    refine ih (step p op) (by rw [hbase]; exact hb) (by rw [hbase]; exact hbR)
      (fun o ho => by rw [hbase]; exact hok o (List.mem_cons_of_mem _ ho)) ?_
    exact step_uval_bound p op hb hbR (hok op (List.mem_cons_self _ _)) hI

/-- C5: in every reachable accumulator state, while the kind is still
integer, the unsigned mantissa magnitude is at most 2^63; and this bound is
preserved by every append_mantissa_digit call. -/
theorem C5_magnitude_invariant (b : ℕ) (ops : List Op) (h1 : 2 ≤ b)
    (h2 : b ≤ 255) (hops : ∀ op ∈ ops, op.digitsOk b) :
    ((run (number_parser_init b) ops).is_float = false →
      (run (number_parser_init b) ops).uval ≤ 2 ^ 63) ∧
    (∀ s d, 2 ≤ s.base → s.base ≤ 255 → d < s.base →
      (s.is_float = false → s.uval ≤ 2 ^ 63) →
      (number_parser_add_digit s d).is_float = false →
      (number_parser_add_digit s d).uval ≤ 2 ^ 63) := by
  constructor
  · exact run_uval_bound ops (number_parser_init b) h1 h2 hops
      (fun _ => Nat.zero_le _)
  · intro s d hb hbR hd hI
    exact add_digit_uval_bound s d hb hd hbR hI

theorem C5_witness :
    (run (number_parser_init 10) [Op.addDigit 7]).uval ≤ 2 ^ 63 ∧
    (number_parser_add_digit
        { number_parser_init 10 with uval := 3 } 7).uval ≤ 2 ^ 63 := by
  have h := C5_magnitude_invariant 10 [Op.addDigit 7] (by decide) (by decide)
    (by
      intro op hop
      rcases List.mem_singleton.1 hop with rfl
      show (7 : ℕ) < 10
      decide)
  exact ⟨h.1 (by decide), h.2 _ 7 (by decide) (by decide) (by decide)
    (fun _ => by decide) (by decide)⟩


theorem C6_amended_witness :
    0 ≤ (run { number_parser_init 10 with rad_off := 0 }
        [Op.addDigit 3]).rad_off ∧
    (run { number_parser_init 10 with rad_off := 0 }
        [Op.addDigit 3]).rad_off =
      ({ number_parser_init 10 with rad_off := 0 } :
        number_parser_state).rad_off :=
  ⟨(C6_amended _ [Op.addDigit 3] (by decide) (by decide)).1,
    (C6_amended _ [Op.addDigit 3] (by decide) (by decide)).2 (by decide)⟩

theorem C7_amended_witness :
    (number_parser_end
        (number_parser_end (number_parser_init 10)).snd).fst =
      (number_parser_end (number_parser_init 10)).fst ∧
    (number_parser_end
        (number_parser_end (number_parser_init 10)).snd).snd =
      (number_parser_end (number_parser_init 10)).snd :=
  ⟨(C7_amended (number_parser_init 10)).1,
    (C7_amended (number_parser_init 10)).2 rfl (by decide)⟩


theorem digitsFold_mono (b : ℕ) (hb : 0 < b) (ds : List ℕ) :
    ∀ u : ℕ, u ≤ ds.foldl (fun v d => v * b + d) u := by
  induction ds with
  | nil => intro u; exact le_refl u
  | cons d ds ih =>
    intro u
    rw [List.foldl_cons]
    refine le_trans ?_ (ih (u * b + d))
    have h1 : u ≤ u * b := Nat.le_mul_of_pos_right u hb
    omega

theorem toInt64_wrap_neg (m : ℕ) (hm : m ≤ 2 ^ 63) :
    toInt64 (wrapU64 (-(toInt64 m))) = -(m : ℤ) := by
  unfold toInt64 wrapU64
  split_ifs <;> omega

theorem toInt64_small (m : ℕ) (hm : m < 2 ^ 63) : toInt64 m = (m : ℤ) := by
  unfold toInt64
  rw [if_pos hm]

theorem add_digit_int_step (p : number_parser_state) (d : ℕ) (hb : 0 < p.base)
    (hf : p.is_float = false) (hlen : p.int_len < MAX_LEN)
    (hval : p.uval * p.base + d ≤ 2 ^ 63) :
    number_parser_add_digit p d =
      { p with int_len := p.int_len + 1, uval := p.uval * p.base + d } := by
  have hMI : MAX_INT = 2 ^ 63 := rfl
  have hdiv : ¬ (MAX_INT / p.base < p.uval) := by
    rw [not_lt, Nat.le_div_iff_mul_le hb]
    omega
  have humul : p.uval * p.base < 2 ^ 64 := by omega
  have hmod : p.uval * p.base % 2 ^ 64 = p.uval * p.base :=
    Nat.mod_eq_of_lt humul
  have hadd : ¬ (MAX_INT - d < p.uval * p.base) := by
    rw [not_lt]
    omega
  unfold number_parser_add_digit
  rw [if_neg (not_le.mpr hlen)]
  dsimp only
  rw [if_pos hf, if_neg hdiv, if_pos hf, hmod, if_neg hadd,
    Nat.mod_eq_of_lt (by omega : p.uval * p.base + d < 2 ^ 64)]


theorem fold_add_digit_exact (b : ℕ) (hb : 2 ≤ b) (ds : List ℕ) :
    ∀ p : number_parser_state, p.is_float = false → p.base = b →
      0 ≤ p.int_len → p.int_len + ds.length ≤ 32767 →
      (∀ d ∈ ds, d < b) →
      ds.foldl (fun v d => v * b + d) p.uval ≤ 2 ^ 63 →
      ds.foldl number_parser_add_digit p =
        { p with int_len := p.int_len + ds.length,
                 uval := ds.foldl (fun v d => v * b + d) p.uval } := by
  induction ds with
  | nil =>
    intro p hf hbase hI hlen hds hval
    simp
  | cons d ds ih =>
    intro p hf hbase hI hlen hds hval
    rw [List.foldl_cons] at hval
    rw [List.foldl_cons, List.foldl_cons]
    have hmono : p.uval * b + d ≤ ds.foldl (fun v d => v * b + d)
        (p.uval * b + d) := digitsFold_mono b (by omega) ds _
    have hval1 : p.uval * b + d ≤ 2 ^ 63 := le_trans hmono hval
    have hlen1 : p.int_len < MAX_LEN := by
      have hML : MAX_LEN = 32767 := rfl
      rw [List.length_cons] at hlen
      push_cast at hlen
      omega
    have hstep := add_digit_int_step p d (by omega) hf hlen1
      (by rw [hbase]; exact hval1)
    rw [hstep]
    have hih := ih
      ({ p with int_len := p.int_len + 1, uval := p.uval * p.base + d })
      hf (by exact hbase) (by dsimp only; omega)
      (by
        dsimp only
        rw [List.length_cons] at hlen
        push_cast at hlen ⊢
        omega)
      (fun x hx => hds x (List.mem_cons_of_mem _ hx))
      (by dsimp only; rw [hbase]; exact hval)
    rw [hih, hbase]
    simp only [number_parser_state.mk.injEq, List.length_cons, and_true, true_and]
    push_cast
    ring


/-- C1 amended: for every base in [2,255] and every most-significant-first
digit sequence of at most 32767 digits (the digit-count cap), each digit in
[0, base-1], whose value with the chosen mantissa sign lies in
[-2^63, 2^63-1], running construct, the digit appends, set_mantissa_sign and
finalize yields kind=integer and the exact signed value, with no promotion to
floating-point at any step. -/
theorem C1_exact_integer (b : ℕ) (ds : List ℕ) (sign : Bool) (h1 : 2 ≤ b)
    (h2 : b ≤ 255) (hds : ∀ d ∈ ds, d < b) (hlen : ds.length ≤ 32767)
    (hval : -(2 ^ 63) ≤ (if sign = true then -(digitsVal b ds : ℤ)
        else (digitsVal b ds : ℤ)) ∧
      (if sign = true then -(digitsVal b ds : ℤ) else (digitsVal b ds : ℤ)) ≤
        2 ^ 63 - 1) :
    (∀ k, ((ds.take k).foldl number_parser_add_digit
        (number_parser_init b)).is_float = false) ∧
    (number_parser_end (number_parser_set_neg
        (ds.foldl number_parser_add_digit (number_parser_init b))
        sign)).fst = false ∧
    ival (number_parser_end (number_parser_set_neg
        (ds.foldl number_parser_add_digit (number_parser_init b))
        sign)).snd =
      (if sign = true then -(digitsVal b ds : ℤ) else (digitsVal b ds : ℤ)) := by
  have hMP : MAX_POS_INT = 2 ^ 63 - 1 := rfl
  have hm : digitsVal b ds ≤ 2 ^ 63 := by
    by_cases hs : sign = true
    · rw [if_pos hs] at hval
      have h := hval.1
      omega
    · rw [if_neg hs] at hval
      have h := hval.2
      omega
  have hfold := fold_add_digit_exact b h1 ds (number_parser_init b) rfl rfl
    (le_refl 0)
    (by show (0 : ℤ) + (ds.length : ℤ) ≤ 32767; push_cast; omega) hds hm
  have part1 : ∀ k, ((ds.take k).foldl number_parser_add_digit
      (number_parser_init b)).is_float = false := by
    intro k
    have hsub : ∀ d ∈ ds.take k, d < b :=
      fun d hd => hds d (List.take_subset _ _ hd)
    have hlen' : (ds.take k).length ≤ 32767 := by
      rw [List.length_take]
      exact le_trans (min_le_right _ _) hlen
    have hvk : (ds.take k).foldl (fun v d => v * b + d) 0 ≤ 2 ^ 63 := by
      have hsplit : ds.foldl (fun v d => v * b + d) 0 =
          (ds.drop k).foldl (fun v d => v * b + d)
            ((ds.take k).foldl (fun v d => v * b + d) 0) := by
        rw [← List.foldl_append, List.take_append_drop]
      have hmono := digitsFold_mono b (by omega) (ds.drop k)
        ((ds.take k).foldl (fun v d => v * b + d) 0)
      have hm' : ds.foldl (fun v d => v * b + d) 0 ≤ 2 ^ 63 := hm
      rw [hsplit] at hm'
      exact le_trans hmono hm'
    have htk := fold_add_digit_exact b h1 (ds.take k) (number_parser_init b)
      rfl rfl (le_refl 0)
      (by show (0 : ℤ) + ((ds.take k).length : ℤ) ≤ 32767; push_cast; omega)
      hsub hvk
    rw [htk]
    rfl
  have hKey : (number_parser_end (number_parser_set_neg
      (ds.foldl number_parser_add_digit (number_parser_init b))
      sign)).fst = false ∧
      ival (number_parser_end (number_parser_set_neg
        (ds.foldl number_parser_add_digit (number_parser_init b))
        sign)).snd =
      (if sign = true then -(digitsVal b ds : ℤ)
        else (digitsVal b ds : ℤ)) := by
    rw [hfold]
    unfold number_parser_set_neg number_parser_init
    dsimp only
    have hc : ¬ promoteCond
        { int_len := 0 + (ds.length : ℤ), rad_off := -1, exp_val := 0,
          base := b, sign := sign, exp_sign := false, is_float := false,
          has_exp := false, was_int := false,
          uval := ds.foldl (fun v d => v * b + d) 0, fval := 0 } := by
      unfold promoteCond
      dsimp only
      rintro (⟨ha, hb'⟩ | ha | ha)
      · rw [ha] at hval
        rw [if_neg (by decide : ¬ (false = true))] at hval
        have h := hval.2
        rw [hMP] at hb'
        have hdv : digitsVal b ds = List.foldl (fun v d => v * b + d) 0 ds :=
          rfl
        rw [← hdv] at hb'
        omega
      · cases ha
      · exact absurd ha (by decide)
    have hEnd := end_int_case _ rfl hc
    rw [hEnd]
    refine ⟨rfl, ?_⟩
    dsimp only
    by_cases hs : sign = true
    · rw [if_pos hs, if_pos hs]
      exact toInt64_wrap_neg _ hm
    · rw [if_neg hs, if_neg hs]
      have hmlt : digitsVal b ds < 2 ^ 63 := by
        rw [if_neg hs] at hval
        have h := hval.2
        omega
      exact toInt64_small _ hmlt
  exact ⟨part1, hKey.1, hKey.2⟩


theorem C1_witness :
    (([1, 2].take 1).foldl number_parser_add_digit
        (number_parser_init 10)).is_float = false ∧
    (number_parser_end (number_parser_set_neg
        ([1, 2].foldl number_parser_add_digit (number_parser_init 10))
        true)).fst = false ∧
    ival (number_parser_end (number_parser_set_neg
        ([1, 2].foldl number_parser_add_digit (number_parser_init 10))
        true)).snd =
      (if true = true then -(digitsVal 10 [1, 2] : ℤ)
        else (digitsVal 10 [1, 2] : ℤ)) := by
  have h := C1_exact_integer 10 [1, 2] true (by decide) (by decide) (by decide)
    (by decide) (by exact ⟨by decide, by decide⟩)
  exact ⟨h.1 1, h.2.1, h.2.2⟩

theorem foldl_val_replicate_zero (k : ℕ) :
    (List.replicate k 0).foldl (fun v d => v * 10 + d) 0 = 0 := by
  induction k with
  | zero => rfl
  | succ k ih => rw [List.replicate_succ, List.foldl_cons]; simpa using ih

theorem zeros_fill (k : ℕ) : ∀ j : ℤ, 0 ≤ j → j + k ≤ 32767 →
    (List.replicate k 0).foldl number_parser_add_digit
      { number_parser_init 10 with int_len := j } =
    { number_parser_init 10 with int_len := j + k } := by
  induction k with
  | zero => intro j hj hk; simp
  | succ k ih =>
    intro j hj hk
    rw [List.replicate_succ, List.foldl_cons]
    have hML : MAX_LEN = 32767 := rfl
    have hstep := add_digit_int_step
      ({ number_parser_init 10 with int_len := j }) 0
      (by show (0 : ℕ) < 10; norm_num) rfl
      (by show j < MAX_LEN; rw [hML]; push_cast at hk; omega)
      (by show (0 : ℕ) * 10 + 0 ≤ 2 ^ 63; norm_num)
    have hstep' : number_parser_add_digit
        ({ number_parser_init 10 with int_len := j }) 0 =
        { number_parser_init 10 with int_len := j + 1 } := by
      rw [hstep]
      rfl
    rw [hstep']
    rw [show (j + ((k + 1 : ℕ) : ℤ)) = (j + 1) + (k : ℕ) by push_cast; ring]
    exact ih (j + 1) (by omega) (by push_cast at hk ⊢; omega)

/-- C1 as frozen is false: a digit sequence longer than the 32767-digit cap
can have an in-range value and still be mis-accumulated, because digits past
the cap are dropped.  With base 10 and 32767 leading zeros followed by the
digit 5 (value 5, in range, all digits valid), finalize returns kind=integer
but value 0, not 5. -/
theorem C1_counterexample :
    digitsVal 10 (List.replicate 32767 (0 : ℕ) ++ [5]) = 5 ∧
    ((-(2 ^ 63) : ℤ) ≤ 5 ∧ (5 : ℤ) ≤ 2 ^ 63 - 1) ∧
    (number_parser_end (number_parser_set_neg
        ((List.replicate 32767 (0 : ℕ) ++ [5]).foldl number_parser_add_digit
          (number_parser_init 10)) false)).fst = false ∧
    ival (number_parser_end (number_parser_set_neg
        ((List.replicate 32767 (0 : ℕ) ++ [5]).foldl number_parser_add_digit
          (number_parser_init 10)) false)).snd = 0 ∧
    ((0 : ℤ) ≠ 5) := by
  have hstate : (List.replicate 32767 (0 : ℕ) ++ [5]).foldl
      number_parser_add_digit (number_parser_init 10) =
      { number_parser_init 10 with int_len := 32767 } := by
    rw [List.foldl_append]
    have h00 : ({ number_parser_init 10 with int_len := (0 : ℤ) } :
        number_parser_state) = number_parser_init 10 := rfl
    have h0 := zeros_fill 32767 0 (le_refl 0) (by norm_num)
    rw [h00] at h0
    norm_num at h0
    rw [h0]
    show number_parser_add_digit
      ({ number_parser_init 10 with int_len := 32767 }) 5 = _
    unfold number_parser_add_digit
    rw [if_pos (by decide :
      MAX_LEN ≤ ({ number_parser_init 10 with int_len := (32767 : ℤ) } :
        number_parser_state).int_len)]
  refine ⟨?_, ⟨by decide, by decide⟩, ?_, ?_, by decide⟩
  · show (List.replicate 32767 (0 : ℕ) ++ [5]).foldl
      (fun v d => v * 10 + d) 0 = 5
    rw [List.foldl_append, foldl_val_replicate_zero]
    rfl
  · rw [hstate]; decide
  · rw [hstate]; decide

end NumberParser
